import Mathlib

/-!
Verification of the shapes-file parsing/serialization pipeline of the
`reassembly_shape_editor` repository (files `src/parser.rs`, `src/serializer.rs`,
`src/ast.rs`), as a shallow embedding in Lean.

Modelling conventions:
* Rust `&str`/`String` values are modelled as `List Char` (`Str`).
* Rust `usize` is modelled as `Nat`; the one place the source performs
  un-checked `usize` subtraction that can underflow (`brace_level` in
  `parse_shape`) is modelled with an explicit underflow check that aborts
  (`Option.none`), mirroring the overflow-checked semantics in which the
  Rust program panics.
* Rust `f32` values are modelled exactly by decimal numbers `F32`
  (mantissa times a power of ten).  All numeric literals appearing in the
  concrete inputs of this development are exactly representable in `f32`,
  and on such values Rust's `f32` parsing and `Display` agree with this
  exact-decimal model (Display prints the shortest decimal form).
* The external Lua grammar library (`full_moon`) is modelled by a
  recursive-descent parser `luaParse` for the table-literal dialect the
  repository actually feeds it (tables, decimal numbers, unary minus,
  identifiers, `true`/`false`/`nil`, `--` comments).  A bare identifier
  parses to `LExpr.var`; only `true`/`false`/`nil` parse to `LExpr.sym`,
  matching full_moon's `Expression::Symbol`.
-/

set_option maxRecDepth 100000

namespace RSE

/-- Rust strings are modelled as lists of characters. -/
abbrev Str := List Char

/-- Convenience: turn a Lean string literal into the `Str` model. -/
def str (s : String) : Str := s.toList

/-! ## Exact decimal model of the `f32` values handled by the pipeline -/

/-- An exact decimal number `man / 10 ^ exp`, modelling the `f32` values that
occur in shape files.  Values are kept normalized (no trailing decimal zeros)
by the smart constructor `F32.make`. -/
structure F32 where
  man : Int
  exp : Nat
deriving DecidableEq, Repr

/-- Strip trailing decimal zeros (fuelled, structural). -/
def F32.normAux : Nat → Int → Nat → F32
  | 0, m, e => ⟨m, e⟩
  | _ + 1, m, 0 => ⟨m, 0⟩
  | fuel + 1, m, e + 1 =>
    if m % 10 = 0 then F32.normAux fuel (m / 10) e else ⟨m, e + 1⟩

/-- Normalizing constructor for `F32`. -/
def F32.make (m : Int) (e : Nat) : F32 := F32.normAux e m e

/-- Negation of an exact decimal value (used for the unary-minus vertex path). -/
def F32.neg (x : F32) : F32 := ⟨-x.man, x.exp⟩

/-! ## Character classes and numeric token parsing -/

/-- ASCII decimal digit test. -/
def isDigitC (c : Char) : Bool := '0' ≤ c && c ≤ '9'

/-- Identifier characters of the Lua dialect: letters, digits, underscore. -/
def isIdentC (c : Char) : Bool :=
  ('a' ≤ c && c ≤ 'z') || ('A' ≤ c && c ≤ 'Z') || isDigitC c || c = '_'

/-- First character of an identifier: letter or underscore. -/
def isIdentStartC (c : Char) : Bool :=
  ('a' ≤ c && c ≤ 'z') || ('A' ≤ c && c ≤ 'Z') || c = '_'

/-- Numeric value of a digit character. -/
def digitVal (c : Char) : Nat := c.toNat - '0'.toNat

/-- Fold a digit list into a natural number (most significant first). -/
def digitsToNat (l : Str) : Nat := l.foldl (fun acc c => 10 * acc + digitVal c) 0

/-- Model of Rust `str::parse::<usize>`: optional leading `+`, then one or
more decimal digits. -/
def parseUsize (s : Str) : Option Nat :=
  let t := match s with
    | '+' :: r => r
    | r => r
  if t ≠ [] ∧ t.all isDigitC then some (digitsToNat t) else none

/-- Model of Rust `str::parse::<f32>` restricted to the plain decimal forms
that occur in shape files: optional sign, digits, optional fractional part
(`5`, `5.`, `.5`, `0.5`, `-5`, ...).  Exponent/hex/inf/nan forms are outside
the dialect and rejected. -/
def parseF32 (s : Str) : Option F32 :=
  let (negSign, t) := match s with
    | '-' :: r => (true, r)
    | '+' :: r => (false, r)
    | r => (false, r)
  let ip := t.takeWhile isDigitC
  let rest := t.drop ip.length
  let build : Str → Str → Option F32 := fun ipart fpart =>
    if ipart = [] ∧ fpart = [] then none
    else
      let m : Int := Int.ofNat (digitsToNat (ipart ++ fpart))
      some (F32.make (if negSign then -m else m) fpart.length)
  match rest with
  | [] => if ip = [] then none else build ip []
  | '.' :: fr => if fr.all isDigitC then build ip fr else none
  | _ => none

/-! ## Rendering numbers (Rust `Display`) -/

/-- Digit character for a value `0 ≤ d ≤ 9`. -/
def digitChar (d : Nat) : Char := Char.ofNat (48 + d)

/-- Fuelled most-significant-first digit rendering. -/
def natDigitsAux : Nat → Nat → Str
  | 0, _ => []
  | fuel + 1, n =>
    if n < 10 then [digitChar n]
    else natDigitsAux fuel (n / 10) ++ [digitChar (n % 10)]

/-- Decimal rendering of a natural number, as Rust `Display` for `usize`. -/
def natStr (n : Nat) : Str := natDigitsAux (n + 1) n

/-- Left-pad a digit string with zeros to width `w`. -/
def padZeros (w : Nat) (s : Str) : Str := List.replicate (w - s.length) '0' ++ s

/-- Rendering of an exact decimal value, as Rust `Display` for `f32` renders
the values in scope (shortest decimal form, no trailing `.0`). -/
def f32Str (x : F32) : Str :=
  let sign : Str := if x.man < 0 then ['-'] else []
  let a := x.man.natAbs
  if x.exp = 0 then sign ++ natStr a
  else
    let p := 10 ^ x.exp
    sign ++ natStr (a / p) ++ '.' :: padZeros x.exp (natStr (a % p))

/-- Fixed-width lowercase hexadecimal digit. -/
def hexDigitChar (d : Nat) : Char :=
  if d < 10 then Char.ofNat (48 + d) else Char.ofNat (87 + d)

/-- Fuelled hex digit rendering (least significant digit last). -/
def natHexAux : Nat → Nat → Str
  | 0, _ => []
  | fuel + 1, n =>
    if n < 16 then [hexDigitChar n]
    else natHexAux fuel (n / 16) ++ [hexDigitChar (n % 16)]

/-- Rust formatting of a 32-bit color value: `0x` followed by eight
zero-padded lowercase hex digits. -/
def hex8Str (n : Nat) : Str :=
  str "0x" ++ padZeros 8 (natHexAux (n + 1) n)

end RSE

namespace RSE

/-! ## The data model (`src/ast.rs`) -/

/-- Port types supported in Reassembly (`enum PortType` in `ast.rs`). -/
inductive PortType where
  | Default
  | ThrusterIn
  | ThrusterOut
  | WeaponIn
  | WeaponOut
  | Missile
  | Launcher
  | Root
  | None
deriving DecidableEq, Repr

/-- Model of `PortType::from_str`: the eight explicit tokens, any other
string mapping to `Default`. -/
def PortType.from_str (s : Str) : PortType :=
  if s = str "THRUSTER_IN" then .ThrusterIn
  else if s = str "THRUSTER_OUT" then .ThrusterOut
  else if s = str "WEAPON_IN" then .WeaponIn
  else if s = str "WEAPON_OUT" then .WeaponOut
  else if s = str "MISSILE" then .Missile
  else if s = str "LAUNCHER" then .Launcher
  else if s = str "ROOT" then .Root
  else if s = str "NONE" then .None
  else .Default

/-- Model of `PortType::to_str`. -/
def PortType.to_str : PortType → Str
  | .Default => str "DEFAULT"
  | .ThrusterIn => str "THRUSTER_IN"
  | .ThrusterOut => str "THRUSTER_OUT"
  | .WeaponIn => str "WEAPON_IN"
  | .WeaponOut => str "WEAPON_OUT"
  | .Missile => str "MISSILE"
  | .Launcher => str "LAUNCHER"
  | .Root => str "ROOT"
  | .None => str "NONE"

/-- A vertex (`struct Vertex`). -/
structure Vertex where
  x : F32
  y : F32
deriving DecidableEq, Repr

/-- A port (`struct Port`). -/
structure Port where
  edge : Nat
  position : F32
  port_type : Option PortType
deriving DecidableEq, Repr

/-- A scale variant (`struct Scale`). -/
structure Scale where
  verts : List Vertex
  ports : List Port
deriving DecidableEq, Repr

/-- A shroud decoration component (`struct ShroudComponent`). -/
structure ShroudComponent where
  size : F32 × F32
  offset : F32 × F32 × F32
  taper : F32
  count : Nat
  angle : F32
  tri_color_id : Nat
  tri_color1_id : Nat
  line_color_id : Nat
  shape : Str
deriving DecidableEq, Repr

/-- Properties for explosive fragments (`struct FragmentProperties`). -/
structure FragmentProperties where
  rounds_per_burst : Nat
  muzzle_vel : F32
  spread : F32
  pattern : Option Str
  damage : F32
  range : F32
  color : Option Nat
deriving DecidableEq, Repr

/-- Properties for cannon weapons (`struct CannonProperties`). -/
structure CannonProperties where
  damage : F32
  power : F32
  rounds_per_sec : F32
  muzzle_vel : F32
  range : F32
  spread : F32
  rounds_per_burst : Option Nat
  burstyness : Option F32
  color : Option Nat
  explosive : Option Str
  fragment : Option FragmentProperties
deriving DecidableEq, Repr

/-- Properties for thruster components (`struct ThrusterProperties`). -/
structure ThrusterProperties where
  force : F32
  power : F32
  color : Option Nat
deriving DecidableEq, Repr

/-- A single shape definition (`struct Shape`). -/
structure Shape where
  id : Nat
  name : Option Str
  scales : List Scale
  launcher_radial : Option Bool
  mirror_of : Option Nat
  group : Option Nat
  features : Option (List Str)
  fill_color : Option Nat
  fill_color1 : Option Nat
  line_color : Option Nat
  durability : Option F32
  density : Option F32
  grow_rate : Option F32
  shroud : Option (List ShroudComponent)
  cannon : Option CannonProperties
  thruster : Option ThrusterProperties
deriving DecidableEq, Repr

/-- A complete shapes file (`struct ShapesFile`). -/
structure ShapesFile where
  shapes : List Shape
deriving DecidableEq, Repr

/-! ## The input repair pass (`fix_lua_syntax`, `parser.rs` lines 138-150) -/

/-- Structural engine for `str::replace`: when `skip` is positive the head
character belongs to a previously matched occurrence and is dropped;
otherwise a match of `p` at the head is replaced by `r` (and the remaining
`p.length - 1` matched characters are scheduled for dropping), and a
non-matching head character is copied. -/
def lrAux (p r : Str) : Nat → Str → Str
  | _, [] => []
  | skip + 1, _ :: cs => lrAux p r skip cs
  | 0, c :: cs =>
    if p ≠ [] ∧ p <+: (c :: cs) then r ++ lrAux p r (p.length - 1) cs
    else c :: lrAux p r 0 cs

/-- Model of Rust `str::replace(p, r)`: replace all non-overlapping
occurrences of `p`, scanning left to right. -/
def listReplace (p r s : Str) : Str := lrAux p r 0 s

/-- Model of `fix_lua_syntax` (`parser.rs`): two missing-comma repairs
followed by the two `launcher_radial` rewrites, in source order. -/
def fix_lua_syntax (content : Str) : Str :=
  let f1 := listReplace (str "\x7d\n\t\x7b") (str "\x7d,\n\t\x7b") content
  let f2 := listReplace (str "\x7d\n\x7b") (str "\x7d,\n\x7b") f1
  let f3 := listReplace (str "launcher_radial=") (str "launcher_radial = ") f2
  listReplace (str "launcher_radial") (str "launcher_radial = true") f3

end RSE

namespace RSE

/-! ## Model of the Lua expression trees produced by the grammar library

The repository prepends a `return` keyword to the processed text and
feeds the result to the external
`full_moon` Lua parser and then walks the resulting table-constructor tree.
`LExpr`/`LField` model the fragment of full_moon's AST that the dialect
exercises; `luaParse` below models parsing. -/

mutual

inductive LExpr where
  | num (tok : Str)
  | neg (e : LExpr)
  | sym (tok : Str)
  | var (tok : Str)
  | tbl (fields : List LField)

inductive LField where
  | noKey (e : LExpr)
  | nameKey (k : Str) (v : LExpr)

end

/-- Whitespace characters of the Lua lexer. -/
def isWsC (c : Char) : Bool := c = ' ' || c = '\t' || c = '\n' || c = '\r'

/-- Skip whitespace and `--` line comments.  The boolean flag records
whether the scan is currently inside a comment. -/
def skipWsAux : Bool → Str → Str
  | _, [] => []
  | true, c :: cs => if c = '\n' then skipWsAux false cs else skipWsAux true cs
  | false, c :: cs =>
    if isWsC c then skipWsAux false cs
    else if c = '-' ∧ cs.head? = some '-' then skipWsAux true cs
    else c :: cs

/-- Skip leading whitespace and comments. -/
def skipWs (s : Str) : Str := skipWsAux false s

/-- Lex a numeric token (digits, optionally a decimal point and more digits),
assuming the head character is a digit.  Returns the token and the rest. -/
def numToken (s : Str) : Str × Str :=
  let ip := s.takeWhile isDigitC
  let r1 := s.drop ip.length
  match r1 with
  | '.' :: r2 =>
    let fp := r2.takeWhile isDigitC
    (ip ++ '.' :: fp, r2.drop fp.length)
  | _ => (ip, r1)

mutual

/-- Parse one expression of the dialect (fuelled recursive descent). -/
def pExpr : Nat → Str → Option (LExpr × Str)
  | 0, _ => none
  | fuel + 1, s =>
    match skipWs s with
    | [] => none
    | '-' :: r =>
      match pExpr fuel r with
      | some (e, rest) => some (.neg e, rest)
      | none => none
    | '\x7b' :: r =>
      match pFields fuel r with
      | some (fs, rest) => some (.tbl fs, rest)
      | none => none
    | c :: r =>
      if isDigitC c then
        let (tok, rest) := numToken (c :: r)
        some (.num tok, rest)
      else if isIdentStartC c then
        let tok := (c :: r).takeWhile isIdentC
        let rest := (c :: r).drop tok.length
        if tok = str "true" ∨ tok = str "false" ∨ tok = str "nil" then
          some (.sym tok, rest)
        else
          some (.var tok, rest)
      else none

/-- Parse the fields of a table constructor after its opening brace,
including the closing brace. -/
def pFields : Nat → Str → Option (List LField × Str)
  | 0, _ => none
  | fuel + 1, s =>
    match skipWs s with
    | '\x7d' :: r => some ([], r)
    | t =>
      match pField fuel t with
      | none => none
      | some (f, rest) =>
        match skipWs rest with
        | ',' :: r2 =>
          match pFields fuel r2 with
          | some (fs, rest2) => some (f :: fs, rest2)
          | none => none
        | ';' :: r2 =>
          match pFields fuel r2 with
          | some (fs, rest2) => some (f :: fs, rest2)
          | none => none
        | '\x7d' :: r2 => some ([f], r2)
        | _ => none

/-- Parse a single table field: either `name = expr` or a positional
expression. -/
def pField : Nat → Str → Option (LField × Str)
  | 0, _ => none
  | fuel + 1, s =>
    match skipWs s with
    | [] => none
    | c :: r =>
      if isIdentStartC c then
        let tok := (c :: r).takeWhile isIdentC
        let rest := (c :: r).drop tok.length
        if tok = str "true" ∨ tok = str "false" ∨ tok = str "nil" then
          some (.noKey (.sym tok), rest)
        else
          match skipWs rest with
          | '=' :: r2 =>
            match pExpr fuel r2 with
            | some (v, rest2) => some (.nameKey tok v, rest2)
            | none => none
          | _ => some (.noKey (.var tok), rest)
      else
        match pExpr fuel (c :: r) with
        | some (e, rest) => some (.noKey e, rest)
        | none => none

end

/-- Model of handing `"return " ++ s` to the grammar library: the parse
succeeds exactly when `s` is a single expression of the dialect followed
only by whitespace/comments. -/
def luaParse (s : Str) : Option LExpr :=
  match pExpr (3 * s.length + 16) s with
  | some (e, rest) => if skipWs rest = [] then some e else none
  | none => none

/-! ## The grammar-driven extraction (`extract_shape`, `parser.rs` 305-490) -/

/-- Abstraction of the Rust derived `Debug` rendering of an expression for
the port-type fallback branch.  The only property of the real `Debug` string
this development relies on is that it is a constructor-labelled tree such as
`Var(...)` and therefore never equal to one of the bare `PortType` tokens. -/
def exprDebugStr : LExpr → Str
  | .num tok => str "Number(" ++ tok ++ str ")"
  | .neg _ => str "UnaryOperator(..)"
  | .sym tok => str "Symbol(" ++ tok ++ str ")"
  | .var tok => str "Var(" ++ tok ++ str ")"
  | .tbl _ => str "TableConstructor(..)"

/-- State of the vertex-extraction loop: candidate x, candidate y, index. -/
structure VertSt where
  x : Option F32
  y : Option F32
  m : Nat

/-- One step of the vertex field loop of `extract_shape`. -/
def vertStep (acc : VertSt) (f : LField) : VertSt :=
  match f with
  | .noKey (.num tok) =>
    let val := parseF32 tok
    if acc.m = 0 then ⟨val, acc.y, acc.m + 1⟩
    else if acc.m = 1 then ⟨acc.x, val, acc.m + 1⟩
    else ⟨acc.x, acc.y, acc.m + 1⟩
  | .noKey (.neg (.num tok)) =>
    match parseF32 tok with
    | some v =>
      if acc.m = 0 then ⟨some v.neg, acc.y, acc.m + 1⟩
      else if acc.m = 1 then ⟨acc.x, some v.neg, acc.m + 1⟩
      else ⟨acc.x, acc.y, acc.m + 1⟩
    | none => ⟨acc.x, acc.y, acc.m + 1⟩
  | _ => ⟨acc.x, acc.y, acc.m + 1⟩

/-- Extract one vertex from the fields of a `{x, y}` table. -/
def vertexFromTable (fields : List LField) : Option Vertex :=
  let st := fields.foldl vertStep ⟨none, none, 0⟩
  match st.x, st.y with
  | some x, some y => some ⟨x, y⟩
  | _, _ => none

/-- State of the port-extraction loop. -/
structure PortSt where
  edge : Option Nat
  position : Option F32
  port_type : Option PortType
  m : Nat

/-- One step of the port field loop of `extract_shape`. -/
def portStep (acc : PortSt) (f : LField) : PortSt :=
  match f with
  | .noKey e =>
    if acc.m = 0 then
      match e with
      | .num tok => ⟨parseUsize tok, acc.position, acc.port_type, acc.m + 1⟩
      | _ => ⟨acc.edge, acc.position, acc.port_type, acc.m + 1⟩
    else if acc.m = 1 then
      match e with
      | .num tok => ⟨acc.edge, parseF32 tok, acc.port_type, acc.m + 1⟩
      | _ => ⟨acc.edge, acc.position, acc.port_type, acc.m + 1⟩
    else if acc.m = 2 then
      let type_str := match e with
        | .sym tok => tok
        | other => exprDebugStr other
      ⟨acc.edge, acc.position, some (PortType.from_str type_str), acc.m + 1⟩
    else ⟨acc.edge, acc.position, acc.port_type, acc.m + 1⟩
  | _ => ⟨acc.edge, acc.position, acc.port_type, acc.m + 1⟩

/-- Extract one port from the fields of a `{edge, position[, TYPE]}` table. -/
def portFromTable (fields : List LField) : Option Port :=
  let st := fields.foldl portStep ⟨none, none, none, 0⟩
  match st.edge, st.position with
  | some e, some p => some ⟨e, p, st.port_type⟩
  | _, _ => none

/-- Collect the vertices of a `verts = { ... }` table. -/
def vertsFromTable (fields : List LField) : List Vertex :=
  fields.foldl (fun vs f =>
    match f with
    | .noKey (.tbl vt) =>
      match vertexFromTable vt with
      | some v => vs ++ [v]
      | none => vs
    | _ => vs) []

/-- Collect the ports of a `ports = { ... }` table. -/
def portsFromTable (fields : List LField) : List Port :=
  fields.foldl (fun ps f =>
    match f with
    | .noKey (.tbl pt) =>
      match portFromTable pt with
      | some p => ps ++ [p]
      | none => ps
    | _ => ps) []

/-- Build one scale from the named `verts`/`ports` entries of a scale table. -/
def scaleFromTable (fields : List LField) : Scale :=
  fields.foldl (fun (sc : Scale) f =>
    match f with
    | .nameKey k v =>
      if k = str "verts" then
        match v with
        | .tbl vt => ⟨sc.verts ++ vertsFromTable vt, sc.ports⟩
        | _ => sc
      else if k = str "ports" then
        match v with
        | .tbl pt => ⟨sc.verts, sc.ports ++ portsFromTable pt⟩
        | _ => sc
      else sc
    | _ => sc) ⟨[], []⟩

/-- Collect the scales of the second positional entry of a shape table. -/
def scalesFromTable (fields : List LField) : List Scale :=
  fields.foldl (fun scs f =>
    match f with
    | .noKey (.tbl st) => scs ++ [scaleFromTable st]
    | _ => scs) []

/-- The boolean the shape-level `launcher_radial` handler stores: `true`
unless the value is literally the `false` symbol. -/
def launcherFlag (v : LExpr) : Bool :=
  match v with
  | .sym tok => if tok = str "false" then false else true
  | _ => true

/-- State of the shape-extraction loop. -/
structure ShapeSt where
  id : Option Nat
  scales : List Scale
  launcher : Option Bool
  i : Nat

/-- One step of the shape field loop of `extract_shape`. -/
def shapeStep (acc : ShapeSt) (f : LField) : ShapeSt :=
  match f with
  | .noKey e =>
    if acc.i = 0 then
      match e with
      | .num tok =>
        match parseUsize tok with
        | some v => ⟨some v, acc.scales, acc.launcher, acc.i + 1⟩
        | none => ⟨acc.id, acc.scales, acc.launcher, acc.i + 1⟩
      | _ => ⟨acc.id, acc.scales, acc.launcher, acc.i + 1⟩
    else if acc.i = 1 then
      match e with
      | .tbl sfs => ⟨acc.id, acc.scales ++ scalesFromTable sfs, acc.launcher, acc.i + 1⟩
      | _ => ⟨acc.id, acc.scales, acc.launcher, acc.i + 1⟩
    else ⟨acc.id, acc.scales, acc.launcher, acc.i + 1⟩
  | .nameKey k v =>
    if k = str "launcher_radial" then ⟨acc.id, acc.scales, some (launcherFlag v), acc.i + 1⟩
    else ⟨acc.id, acc.scales, acc.launcher, acc.i + 1⟩

/-- Model of `extract_shape`: walk the fields of a shape table and build a
`Shape`; a table whose first positional entry is not a parseable numeric id
yields `none`. -/
def extract_shape (fields : List LField) : Option Shape :=
  let st := fields.foldl shapeStep ⟨none, [], none, 0⟩
  match st.id with
  | some id =>
    some ⟨id, none, st.scales, st.launcher,
          none, none, none, none, none, none, none, none, none, none, none, none⟩
  | none => none

/-- One step of the top-level shape collection of `parse_shapes_content`. -/
def shapeCollect (acc : List Shape) (f : LField) : List Shape :=
  match f with
  | .noKey (.tbl sfs) =>
    match extract_shape sfs with
    | some sh => acc ++ [sh]
    | none => acc
  | _ => acc

/-- Shapes collected from the top-level table by `parse_shapes_content`. -/
def shapesFromTable (fields : List LField) : List Shape :=
  fields.foldl shapeCollect []

end RSE

namespace RSE

/-! ## The heuristic fallback parser (`legacy_parse_shapes`, `parser.rs` 153-302) -/

/-- Model of Rust `str::lines`: split on newline, dropping a final empty
segment and a trailing carriage return on each line. -/
def rustLines (s : Str) : List Str :=
  let parts := s.splitOn '\n'
  let parts := if parts.getLast? = some [] then parts.dropLast else parts
  parts.map (fun l => if l.getLast? = some '\r' then l.dropLast else l)

/-- Model of Rust `str::trim` on the ASCII inputs in scope. -/
def trim (s : Str) : Str :=
  ((s.dropWhile isWsC).reverse.dropWhile isWsC).reverse

/-- The delimiter class of `trim_matches(|c| c == '{' || c == '}' || c == ',')`. -/
def isBC (c : Char) : Bool := c = '\x7b' || c = '\x7d' || c = ','

/-- Model of `trim_matches` with the brace/comma class. -/
def trimMatchesBC (s : Str) : Str :=
  ((s.dropWhile isBC).reverse.dropWhile isBC).reverse

/-- The scale-scanning loop of `parse_scale`: collects vertex and port rows
until a bare closing-brace line (or the end of input).  Returns the scale
and the index the scan stopped at.  The fuel argument only bounds the
iteration count; it is always supplied large enough to be inexhaustible. -/
def parse_scale_loop (lines : List Str) :
    Nat → Nat → List Vertex → List Port → Bool → Bool → Scale × Nat
  | 0, i, vs, ps, _, _ => (⟨vs, ps⟩, i)
  | fuel + 1, i, vs, ps, inv, inp =>
    if h : i < lines.length then
      let line := trim (lines.get ⟨i, h⟩)
      let sw :=
        if (str "verts") <:+: line then (true, false)
        else if (str "ports") <:+: line then (false, true)
        else (inv, inp)
      let inv := sw.1
      let inp := sw.2
      let vs :=
        if inv ∧ '\x7b' ∈ line ∧ ',' ∈ line then
          let coords := (trimMatchesBC line).splitOn ','
          if 2 ≤ coords.length then
            match parseF32 (trim (coords.getD 0 [])), parseF32 (trim (coords.getD 1 [])) with
            | some x, some y => vs ++ [(⟨x, y⟩ : Vertex)]
            | _, _ => vs
          else vs
        else vs
      let ps :=
        if inp ∧ '\x7b' ∈ line ∧ ',' ∈ line then
          let parts := (trimMatchesBC line).splitOn ','
          if 2 ≤ parts.length then
            match parseUsize (trim (parts.getD 0 [])), parseF32 (trim (parts.getD 1 [])) with
            | some e, some p =>
              let pt := if 3 ≤ parts.length
                then some (PortType.from_str (trim (parts.getD 2 [])))
                else none
              ps ++ [(⟨e, p, pt⟩ : Port)]
            | _, _ => ps
          else ps
        else ps
      if line = str "\x7d" ∨ line = str "\x7d," then (⟨vs, ps⟩, i)
      else parse_scale_loop lines fuel (i + 1) vs ps inv inp
    else (⟨vs, ps⟩, i)

/-- Model of `parse_scale`. -/
def parse_scale (lines : List Str) (start : Nat) : Scale × Nat :=
  parse_scale_loop lines (lines.length + 1) start [] [] false false

/-- The shape-scanning loop of `parse_shape`.  The running `usize` brace
level is modelled with an explicit underflow check: a line whose closing
braces outnumber the current level plus its opening braces makes the Rust
subtraction underflow (a panic under overflow checking), modelled as `none`. -/
def parse_shape_loop (lines : List Str) :
    Nat → Nat → Nat → List Scale → Option Bool → Option (List Scale × Option Bool × Nat)
  | 0, i, _, scs, lr => some (scs, lr, i)
  | fuel + 1, i, lvl, scs, lr =>
    if h : i < lines.length ∧ 0 < lvl then
      let line := trim (lines.get ⟨i, h.1⟩)
      let lvl := lvl + line.count '\x7b'
      let closes := line.count '\x7d'
      if lvl < closes then none
      else
        let lvl := lvl - closes
        let lr := if (str "launcher_radial") <:+: line then some true else lr
        if (str "verts") <:+: line ∧ '\x7b' ∈ line then
          let sr := parse_scale lines i
          let scs := if sr.1.verts ≠ [] then scs ++ [sr.1] else scs
          parse_shape_loop lines fuel sr.2 lvl scs lr
        else
          parse_shape_loop lines fuel (i + 1) lvl scs lr
    else some (scs, lr, i)

/-- Model of `parse_shape`: scan the lines of one shape starting after its
id line; build the `Shape` with every extended field absent. -/
def parse_shape (id : Nat) (lines : List Str) (start : Nat) : Option (Shape × Nat) :=
  match parse_shape_loop lines (lines.length + 1) (start + 1) 1 [] none with
  | some (scs, lr, i) =>
    some (⟨id, none, scs, lr,
           none, none, none, none, none, none, none, none, none, none, none, none⟩, i)
  | none => none

/-- The top-level scanning loop of `legacy_parse_shapes`. -/
def legacy_loop (lines : List Str) : Nat → Nat → List Shape → Option (List Shape)
  | 0, _, acc => some acc
  | fuel + 1, i, acc =>
    if h : i < lines.length then
      let line := trim (lines.get ⟨i, h⟩)
      if line = [] ∨ (str "--") <+: line then legacy_loop lines fuel (i + 1) acc
      else if (str "\x7b") <+: line ∧ ',' ∈ line then
        let parts := (trimMatchesBC line).splitOn ','
        match parseUsize (trim (parts.getD 0 [])) with
        | some id =>
          match parse_shape id lines i with
          | some (sh, ni) => legacy_loop lines fuel ni (acc ++ [sh])
          | none => none
        | none => legacy_loop lines fuel (i + 1) acc
      else legacy_loop lines fuel (i + 1) acc
    else some acc

/-- Model of `legacy_parse_shapes`.  A `some` result models the Rust
function returning `Ok`; `none` models the brace-level underflow panic. -/
def legacy_parse_shapes (content : Str) : Option ShapesFile :=
  let lines := rustLines content
  match legacy_loop lines (lines.length + 1) 0 [] with
  | some shs => some ⟨shs⟩
  | none => none

/-! ## The public entry point (`parse_shapes_content`, `parser.rs` 49-135) -/

/-- Model of `parse_shapes_content`: repair, attempt the grammar-driven
parse of `return <processed>`, walk the table on success, and fall back to
the heuristic parser on grammar failure, on a non-table result, or on an
empty shape list.  Every normal return of the Rust function is `Ok`
(the error type is never constructed on any reachable path), so the model
returns `Option ShapesFile` with `some` standing for a normal `Ok` return
and `none` for the fallback parser's underflow panic. -/
def parse_shapes_content (lua_content : Str) : Option ShapesFile :=
  let processed := fix_lua_syntax lua_content
  match luaParse processed with
  | some (.tbl fields) =>
    let shapes := shapesFromTable fields
    if shapes = [] then legacy_parse_shapes lua_content
    else some ⟨shapes⟩
  | some _ => legacy_parse_shapes lua_content
  | none => legacy_parse_shapes lua_content

end RSE

namespace RSE

/-! ## The canonical serializer (`serialize_shapes_file`, `src/serializer.rs`) -/

/-- The vertex line: twenty spaces of indentation, then the brace-enclosed
comma-separated pair of coordinates, a comma and a newline. -/
def vertLine (v : Vertex) : Str :=
  str "                    \x7b" ++ f32Str v.x ++ str ", " ++ f32Str v.y ++ str "\x7d,\n"

/-- The per-port emission of the serializer (`serializer.rs` lines 43-50):
a typed port is written with its type token and an explanatory comment, an
untyped port as a plain pair. -/
def portLine (port : Port) : Str :=
  match port.port_type with
  | some pt =>
    str "                    \x7b" ++ natStr port.edge ++ str ", " ++ f32Str port.position
      ++ str ", " ++ pt.to_str ++ str "\x7d,  -- Edge " ++ natStr port.edge
      ++ str ", position " ++ f32Str port.position ++ str ", type " ++ pt.to_str ++ str "\n"
  | none =>
    str "                    \x7b" ++ natStr port.edge ++ str ", " ++ f32Str port.position
      ++ str "\x7d,\n"

/-- One scale block, including the trailing `--scale` comment line. -/
def scaleBlock (total j : Nat) (sc : Scale) : Str :=
  str "            \x7b\n"
  ++ str "                verts = \x7b"
  ++ (if sc.verts = [] then str "\x7d"
      else str "\n" ++ (sc.verts.map vertLine).flatten ++ str "                \x7d")
  ++ str ",\n"
  ++ str "                ports = \x7b"
  ++ (if sc.ports = [] then str "\x7d"
      else str "\n" ++ (sc.ports.map portLine).flatten ++ str "                \x7d")
  ++ (if j < total - 1
      then str "\n            \x7d, --scale " ++ natStr (j + 1) ++ str "\n"
      else str "\n            \x7d --scale " ++ natStr (j + 1) ++ str "\n")

/-- One shroud component line. -/
def shroudLine (c : ShroudComponent) : Str :=
  str "                \x7bsize = \x7b" ++ f32Str c.size.1 ++ str ", " ++ f32Str c.size.2
  ++ str "\x7d, offset = \x7b" ++ f32Str c.offset.1 ++ str ", " ++ f32Str c.offset.2.1
  ++ str ", " ++ f32Str c.offset.2.2 ++ str "\x7d, taper = " ++ f32Str c.taper
  ++ str ", count = " ++ natStr c.count ++ str ", angle = " ++ f32Str c.angle
  ++ str ", tri_color_id = " ++ natStr c.tri_color_id
  ++ str ", tri_color1_id = " ++ natStr c.tri_color1_id
  ++ str ", line_color_id = " ++ natStr c.line_color_id
  ++ str ", shape = " ++ c.shape ++ str "\x7d,\n"

/-- The nested fragment block of a cannon. -/
def fragmentBlock (fr : FragmentProperties) : Str :=
  str "                fragment = \x7b\n"
  ++ str "                    roundsPerBurst = " ++ natStr fr.rounds_per_burst ++ str ",\n"
  ++ str "                    muzzleVel = " ++ f32Str fr.muzzle_vel ++ str ",\n"
  ++ str "                    spread = " ++ f32Str fr.spread ++ str ",\n"
  ++ (match fr.pattern with
      | some p => str "                    pattern = \"" ++ p ++ str "\",\n"
      | none => [])
  ++ str "                    damage = " ++ f32Str fr.damage ++ str ",\n"
  ++ str "                    range = " ++ f32Str fr.range ++ str ",\n"
  ++ (match fr.color with
      | some c => str "                    color = " ++ hex8Str c ++ str ",\n"
      | none => [])
  ++ str "                \x7d,\n"

/-- The cannon block. -/
def cannonBlock (ca : CannonProperties) : Str :=
  str "            cannon = \x7b\n"
  ++ str "                damage = " ++ f32Str ca.damage ++ str ",\n"
  ++ str "                power = " ++ f32Str ca.power ++ str ",\n"
  ++ str "                roundsPerSec = " ++ f32Str ca.rounds_per_sec ++ str ",\n"
  ++ str "                muzzleVel = " ++ f32Str ca.muzzle_vel ++ str ",\n"
  ++ str "                range = " ++ f32Str ca.range ++ str ",\n"
  ++ str "                spread = " ++ f32Str ca.spread ++ str ",\n"
  ++ (match ca.rounds_per_burst with
      | some r => str "                roundsPerBurst = " ++ natStr r ++ str ",\n"
      | none => [])
  ++ (match ca.burstyness with
      | some b => str "                burstyness = " ++ f32Str b ++ str ",\n"
      | none => [])
  ++ (match ca.color with
      | some c => str "                color = " ++ hex8Str c ++ str ",\n"
      | none => [])
  ++ (match ca.explosive with
      | some e => str "                explosive = " ++ e ++ str ",\n"
      | none => [])
  ++ (match ca.fragment with
      | some fr => fragmentBlock fr
      | none => [])
  ++ str "            \x7d,\n"

/-- The thruster block. -/
def thrusterBlock (th : ThrusterProperties) : Str :=
  str "            thruster = \x7b\n"
  ++ str "                force = " ++ f32Str th.force ++ str ",\n"
  ++ str "                power = " ++ f32Str th.power ++ str ",\n"
  ++ (match th.color with
      | some c => str "                color = " ++ hex8Str c ++ str ",\n"
      | none => [])
  ++ str "            \x7d,\n"

/-- The fixed-order optional-property section of one shape. -/
def shapeOptions (sh : Shape) : Str :=
  (match sh.group with
   | some g => str "            group = " ++ natStr g ++ str ",\n"
   | none => [])
  ++ (match sh.features with
      | some fs => str "            features = \"" ++ List.intercalate (str "|") fs ++ str "\",\n"
      | none => [])
  ++ (match sh.fill_color with
      | some c => str "            fillColor = " ++ hex8Str c ++ str ",\n"
      | none => [])
  ++ (match sh.fill_color1 with
      | some c => str "            fillColor1 = " ++ hex8Str c ++ str ",\n"
      | none => [])
  ++ (match sh.line_color with
      | some c => str "            lineColor = " ++ hex8Str c ++ str ",\n"
      | none => [])
  ++ (match sh.durability with
      | some d => str "            durability = " ++ f32Str d ++ str ",\n"
      | none => [])
  ++ (match sh.density with
      | some d => str "            density = " ++ f32Str d ++ str ",\n"
      | none => [])
  ++ (match sh.grow_rate with
      | some g => str "            growRate = " ++ f32Str g ++ str ",\n"
      | none => [])
  ++ (match sh.launcher_radial with
      | some true => str "            launcher_radial = true,\n"
      | some false => str "            launcher_radial = false,\n"
      | none => [])
  ++ (match sh.mirror_of with
      | some m => str "            mirror_of = " ++ natStr m ++ str ",\n"
      | none => [])
  ++ (match sh.shroud with
      | some comps =>
        str "            shroud = \x7b\n" ++ (comps.map shroudLine).flatten
          ++ str "            \x7d,\n"
      | none => [])
  ++ (match sh.cannon with
      | some ca => cannonBlock ca
      | none => [])
  ++ (match sh.thruster with
      | some th => thrusterBlock th
      | none => [])

/-- One whole shape block of the serialized file. -/
def shapeBlock (total i : Nat) (sh : Shape) : Str :=
  str "    \x7b" ++ natStr sh.id ++ str ","
  ++ (match sh.name with
      | some n => str " --" ++ n
      | none => [])
  ++ str "\n"
  ++ str "        \x7b\n"
  ++ ((sh.scales.enum.map (fun p => scaleBlock sh.scales.length p.1 p.2)).flatten)
  ++ shapeOptions sh
  ++ str "        \x7d"
  ++ (if i < total - 1 then str "\n    \x7d,\n" else str "\n    \x7d\n")

/-- Model of `serialize_shapes_file`. -/
def serialize_shapes_file (sf : ShapesFile) : Str :=
  str "\x7b\n"
  ++ ((sf.shapes.enum.map (fun p => shapeBlock sf.shapes.length p.1 p.2)).flatten)
  ++ str "\x7d\n"

end RSE

namespace RSE

/-! ## Concrete inputs and models used by the claims -/

/-- Scenario 1 of the specification (section 8): a top-level table holding
one shape `5001` with a name comment, four vertices and two ports, the
second port tagged `THRUSTER_OUT`. -/
def scenario1 : Str :=
  str "\x7b\n  \x7b5001, --Square\n    \x7b\n      \x7b\n        verts=\x7b\n          \x7b5,-5\x7d,\x7b-5,-5\x7d,\x7b-5,5\x7d,\x7b5,5\x7d\n        \x7d,\n        ports=\x7b\n          \x7b0,0.5\x7d,\x7b1,0.5,THRUSTER_OUT\x7d\n        \x7d\n      \x7d\n    \x7d\n  \x7d,\n\x7d\n"

/-- Scenario 2 of the specification: scenario 1 with the comma after
`\x7b5001` removed and no other change. -/
def scenario2 : Str :=
  str "\x7b\n  \x7b5001 --Square\n    \x7b\n      \x7b\n        verts=\x7b\n          \x7b5,-5\x7d,\x7b-5,-5\x7d,\x7b-5,5\x7d,\x7b5,5\x7d\n        \x7d,\n        ports=\x7b\n          \x7b0,0.5\x7d,\x7b1,0.5,THRUSTER_OUT\x7d\n        \x7d\n      \x7d\n    \x7d\n  \x7d,\n\x7d\n"

/-- A shape with the given id, scales and name and every other field absent. -/
def noneShape (id : Nat) (scs : List Scale) (nm : Option Str) : Shape :=
  ⟨id, nm, scs, none, none, none, none, none, none, none, none, none, none, none, none, none⟩

/-- What the code actually produces on scenario 1: the name is dropped and
the `THRUSTER_OUT` token degrades to `Default`. -/
def scenario1Result : ShapesFile :=
  ⟨[noneShape 5001
      [⟨[⟨⟨5, 0⟩, ⟨-5, 0⟩⟩, ⟨⟨-5, 0⟩, ⟨-5, 0⟩⟩, ⟨⟨-5, 0⟩, ⟨5, 0⟩⟩, ⟨⟨5, 0⟩, ⟨5, 0⟩⟩],
        [⟨0, ⟨5, 1⟩, none⟩, ⟨1, ⟨5, 1⟩, some .Default⟩]⟩]
      none]⟩

/-- What the specification claims scenario 1 produces: one shape with id
5001, name `Square`, the same scale, and the second port typed
`ThrusterOut`. -/
def scenario1Claimed : ShapesFile :=
  ⟨[noneShape 5001
      [⟨[⟨⟨5, 0⟩, ⟨-5, 0⟩⟩, ⟨⟨-5, 0⟩, ⟨-5, 0⟩⟩, ⟨⟨-5, 0⟩, ⟨5, 0⟩⟩, ⟨⟨5, 0⟩, ⟨5, 0⟩⟩],
        [⟨0, ⟨5, 1⟩, none⟩, ⟨1, ⟨5, 1⟩, some .ThrusterOut⟩]⟩]
      (some (str "Square"))]⟩

/-- What the code actually produces on scenario 2: the heuristic fallback
mis-recovers two degenerate shapes (one per coordinate row whose first
token happens to parse as an integer) instead of shape 5001. -/
def scenario2Result : ShapesFile :=
  ⟨[noneShape 5 [] none, noneShape 0 [] none]⟩

/-- An input that is not valid grammar and whose second line closes more
braces than are open, driving the fallback scanner's `usize` brace level
below zero. -/
def c2input : Str := str "\x7b5,\n\x7d\x7d\x7d"

/-- Input with the same underflow shape for exercising the fallback parser
directly. -/
def c3input : Str := str "\x7b7,\n\x7d\x7d\x7d"

/-- The round-trip test model: one shape with a display name, one scale
with one vertex and one typed port, all extended properties absent. -/
def mStar : ShapesFile :=
  ⟨[noneShape 5001 [⟨[⟨⟨5, 0⟩, ⟨-5, 0⟩⟩], [⟨1, ⟨5, 1⟩, some .ThrusterOut⟩]⟩]
      (some (str "Square"))]⟩

/-- What parsing the serialized form of `mStar` actually yields: the name
comes back absent and the port type collapses to `Default`. -/
def mStarParsed : ShapesFile :=
  ⟨[noneShape 5001 [⟨[⟨⟨5, 0⟩, ⟨-5, 0⟩⟩], [⟨1, ⟨5, 1⟩, some .Default⟩]⟩] none]⟩

/-- The untyped port emission claimed by the specification for the
`Default`/absent case: `\x7bedge, position\x7d` with no third token (with the
serializer's fixed indentation and line ending). -/
def specOmittedPortLine (port : Port) : Str :=
  str "                    \x7b" ++ natStr port.edge ++ str ", " ++ f32Str port.position
    ++ str "\x7d,\n"

/-- The thirteen never-populated fields of a parsed shape. -/
def extrasNone (sh : Shape) : Prop :=
  sh.name = none ∧ sh.mirror_of = none ∧ sh.group = none ∧ sh.features = none ∧
  sh.fill_color = none ∧ sh.fill_color1 = none ∧ sh.line_color = none ∧
  sh.durability = none ∧ sh.density = none ∧ sh.grow_rate = none ∧
  sh.shroud = none ∧ sh.cannon = none ∧ sh.thruster = none

/-- Witness input for the all-fields-absent invariant. -/
def w10 : Str := str "\x7b \x7b9, 0\x7d \x7d"

/-- The shapes file recovered from `w10`. -/
def w10sf : ShapesFile := ⟨[noneShape 9 [] none]⟩

/-- Witness shape-table fields for the `launcher_radial` claim: id, empty
scales table, and a bare `launcher_radial` flag as normalized by the
repair pass. -/
def c9wFields : List LField :=
  [.noKey (.num (str "5001")), .noKey (.tbl []),
   .nameKey (str "launcher_radial") (.sym (str "true"))]

/-- The shape extracted from `c9wFields`. -/
def c9Shape : Shape :=
  ⟨5001, none, [], some true,
   none, none, none, none, none, none, none, none, none, none, none, none⟩

/-- Witness input string for the `launcher_radial` claim. -/
def c9s : Str := str "\x7b \x7b5001, \x7b\x7d, launcher_radial\x7d \x7d"

/-- The field list `luaParse` produces from the repaired `c9s`. -/
def c9fs : List LField := [.noKey (.tbl c9wFields)]

end RSE

namespace RSE

/-! # Claim theorems -/

/-- C5: PortType token mapping round-trips: `from_str (to_str t) = t` for
each of the nine tags, and every token outside the nine-token vocabulary
maps to `Default` rather than an error. -/
theorem c5_porttype_roundtrip :
    (∀ t : PortType, PortType.from_str (PortType.to_str t) = t) ∧
    (∀ s : Str,
      s ∉ [str "DEFAULT", str "THRUSTER_IN", str "THRUSTER_OUT", str "WEAPON_IN",
           str "WEAPON_OUT", str "MISSILE", str "LAUNCHER", str "ROOT", str "NONE"] →
      PortType.from_str s = .Default) := by
  constructor
  · intro t; cases t <;> decide
  · intro s hs
    unfold PortType.from_str
    split_ifs with h1 h2 h3 h4 h5 h6 h7 h8
    · subst h1; exact absurd (by decide) hs
    · subst h2; exact absurd (by decide) hs
    · subst h3; exact absurd (by decide) hs
    · subst h4; exact absurd (by decide) hs
    · subst h5; exact absurd (by decide) hs
    · subst h6; exact absurd (by decide) hs
    · subst h7; exact absurd (by decide) hs
    · subst h8; exact absurd (by decide) hs
    · rfl

/-- Witness for C5 at the `Root` tag and the out-of-vocabulary token
`BOGUS`. -/
theorem c5_witness :
    PortType.from_str (PortType.to_str .Root) = .Root ∧
    PortType.from_str (str "BOGUS") = .Default :=
  ⟨c5_porttype_roundtrip.1 .Root, c5_porttype_roundtrip.2 (str "BOGUS") (by decide)⟩

/-- C2 (code bug): `c2input` is not valid grammar, so the fallback scanner
runs, but instead of returning `Ok` it drives the `usize` brace level of
`parse_shape` below zero — an arithmetic underflow that panics under
overflow checking — modelled by the `none` result. -/
theorem c2_fallback_code_bug :
    (luaParse ( fix_lua_syntax c2input)).isNone = true ∧
    parse_shapes_content c2input = none :=
  ⟨by decide, by decide⟩

/-- C3 (code bug): the heuristic fallback parser is not total: on a shape
whose next line closes more braces than are open, the `usize` brace-level
subtraction underflows instead of returning a `ShapesFile`. -/
theorem c3_legacy_underflow_code_bug :
    legacy_parse_shapes c3input = none := by decide

/-- C6 (code bug): on the specification's scenario-1 input the code
produces a shape with `name = none` (never populated) and the second port
typed `Default` (the `Expression::Symbol` match never fires for a bare
identifier token), not the claimed name `Square` and `ThrusterOut`. -/
theorem c6_scenario1_code_bug :
    parse_shapes_content scenario1 = some scenario1Result ∧
    scenario1Result ≠ scenario1Claimed :=
  ⟨by decide, by decide⟩

/-- C7 counterexample: removing the comma after `\x7b5001` does not yield an
equivalent result; the repair pass does not cover the malformation, the
grammar parse fails, and the heuristic fallback recovers two degenerate
shapes instead. -/
theorem c7_counterexample :
    parse_shapes_content scenario2 = some scenario2Result ∧
    parse_shapes_content scenario1 = some scenario1Result ∧
    scenario2Result ≠ scenario1Result :=
  ⟨by decide, by decide, by decide⟩

/-- C7 amended: the comma-removed scenario still parses without an error
(an `Ok` result), but to two degenerate shapes with ids 5 and 0 and no
scales, not to an equivalent of the original result. -/
theorem c7_amended :
    parse_shapes_content scenario2 = some scenario2Result := by decide

/-- C1 (code bug): the round-trip contract fails.  Parsing the serializer's
output for `mStar` (a model using only data-model vocabulary: id, name,
one scale, a `ThrusterOut` port) loses the name and collapses the port
type to `Default`. -/
theorem c1_roundtrip_code_bug :
    parse_shapes_content (serialize_shapes_file mStar) = some mStarParsed ∧
    mStarParsed ≠ mStar :=
  ⟨by decide, by decide⟩

/-- C8 counterexample: a port with `port_type = some Default` is not
emitted as the claimed untyped `\x7bedge, position\x7d` form; its line carries an
explicit `DEFAULT` token. -/
theorem c8_counterexample :
    portLine ⟨0, ⟨5, 1⟩, some .Default⟩ ≠ specOmittedPortLine ⟨0, ⟨5, 1⟩, some .Default⟩ ∧
    (str ", DEFAULT" <:+: portLine ⟨0, ⟨5, 1⟩, some .Default⟩) :=
  ⟨by decide, by decide⟩

end RSE

namespace RSE

/-- Every shape built by the grammar-driven extractor has all thirteen
extended fields absent: the constructor at the end of `extract_shape`
hard-codes them to `None`. -/
theorem extract_shape_extras {fs : List LField} {sh : Shape}
    (h : extract_shape fs = some sh) : extrasNone sh := by
  simp only [extract_shape] at h
  split at h
  · injection h with h'
    exact h' ▸ ⟨rfl, rfl, rfl, rfl, rfl, rfl, rfl, rfl, rfl, rfl, rfl, rfl, rfl⟩
  · cases h

/-- One collection step preserves the all-extras-absent invariant. -/
theorem shapeCollect_extras {acc : List Shape} {f : LField}
    (hacc : ∀ x ∈ acc, extrasNone x) : ∀ x ∈ shapeCollect acc f, extrasNone x := by
  intro x hx
  unfold shapeCollect at hx
  split at hx
  · split at hx
    · rcases List.mem_append.1 hx with hx | hx
      · exact hacc x hx
      · rw [List.mem_singleton] at hx
        subst hx
        exact extract_shape_extras (by assumption)
    · exact hacc x hx
  · exact hacc x hx

/-- The table-walking fold only produces shapes with all extras absent. -/
theorem foldl_shapeCollect_extras :
    ∀ (fs : List LField) (acc : List Shape), (∀ x ∈ acc, extrasNone x) →
      ∀ x ∈ fs.foldl shapeCollect acc, extrasNone x := by
  intro fs
  induction fs with
  | nil => intro acc hacc x hx; exact hacc x hx
  | cons f fs ih =>
    intro acc hacc x hx
    exact ih _ (fun y hy => shapeCollect_extras hacc y hy) x hx

/-- Every shape built by the fallback scanner has all extras absent: the
constructor at the end of `parse_shape` hard-codes them to `None`. -/
theorem parse_shape_extras {id : Nat} {lines : List Str} {start : Nat}
    {sh : Shape} {ni : Nat} (h : parse_shape id lines start = some (sh, ni)) :
    extrasNone sh := by
  unfold parse_shape at h
  split at h
  · injection h with h'
    injection h' with h1 h2
    exact h1 ▸ ⟨rfl, rfl, rfl, rfl, rfl, rfl, rfl, rfl, rfl, rfl, rfl, rfl, rfl⟩
  · cases h

/-- The fallback scanning loop only accumulates shapes with all extras
absent. -/
theorem legacy_loop_extras {lines : List Str} :
    ∀ (fuel i : Nat) (acc shs : List Shape), (∀ x ∈ acc, extrasNone x) →
      legacy_loop lines fuel i acc = some shs → ∀ sh ∈ shs, extrasNone sh := by
  intro fuel
  induction fuel with
  | zero =>
    intro i acc shs hacc h
    injection h with h'
    exact h' ▸ hacc
  | succ fuel ih =>
    intro i acc shs hacc h
    simp only [legacy_loop] at h
    split at h
    · split at h
      · exact ih _ _ _ hacc h
      · split at h
        · split at h
          · split at h
            · rename_i hsh
              refine ih _ _ _ ?_ h
              intro x hx
              rcases List.mem_append.1 hx with hx | hx
              · exact hacc x hx
              · rw [List.mem_singleton] at hx
                exact hx ▸ parse_shape_extras hsh
            · cases h
          · exact ih _ _ _ hacc h
        · exact ih _ _ _ hacc h
    · injection h with h'
      exact h' ▸ hacc

/-- Every shape returned by the fallback parser has all extras absent. -/
theorem legacy_extras {s : Str} {sf : ShapesFile}
    (h : legacy_parse_shapes s = some sf) : ∀ sh ∈ sf.shapes, extrasNone sh := by
  simp only [legacy_parse_shapes] at h
  split at h
  · rename_i shs heq
    injection h with h'
    subst h'
    intro sh hsh
    exact legacy_loop_extras _ _ _ _ (by intro x hx; cases hx) heq sh hsh
  · cases h

/-- C10: neither the grammar-driven path nor the heuristic fallback of
`parse_shapes_content` ever populates the display name or any extended
optional property of a shape: every shape in any returned file has name,
mirror_of, group, features, the three colors, durability, density,
grow_rate, shroud, cannon and thruster all absent. -/
theorem c10_no_extras_ever_populated :
    ∀ (s : Str) (sf : ShapesFile), parse_shapes_content s = some sf →
      ∀ sh ∈ sf.shapes, extrasNone sh := by
  intro s sf h sh hsh
  simp only [parse_shapes_content] at h
  split at h
  · rename_i fields heqp
    split at h
    · exact legacy_extras h sh hsh
    · injection h with h'
      subst h'
      exact foldl_shapeCollect_extras fields [] (by intro x hx; cases hx) sh hsh
  · exact legacy_extras h sh hsh
  · exact legacy_extras h sh hsh

/-- Witness for C10 on the concrete input `w10`, whose recovered shape has
every extended field absent. -/
theorem c10_witness :
    parse_shapes_content w10 = some w10sf ∧ extrasNone (noneShape 9 [] none) :=
  ⟨by decide,
   c10_no_extras_ever_populated w10 w10sf (by decide) (noneShape 9 [] none) (by decide)⟩

end RSE

namespace RSE

/-- A positional field never touches the launcher flag of the extraction
state. -/
theorem shapeStep_noKey_launcher (st : ShapeSt) (e : LExpr) :
    (shapeStep st (.noKey e)).launcher = st.launcher := by
  cases e <;> simp only [shapeStep] <;> split_ifs <;> (try split) <;> rfl

/-- A named field other than `launcher_radial` never touches the launcher
flag. -/
theorem shapeStep_nameKey_launcher_other (st : ShapeSt) (k : Str) (v : LExpr)
    (hk : k ≠ str "launcher_radial") :
    (shapeStep st (.nameKey k v)).launcher = st.launcher := by
  simp only [shapeStep]
  rw [if_neg hk]

/-- A `launcher_radial` named field stores the flag computed from its
value. -/
theorem shapeStep_nameKey_launcher_lr (st : ShapeSt) (v : LExpr) :
    (shapeStep st (.nameKey (str "launcher_radial") v)).launcher
      = some (launcherFlag v) := by
  simp only [shapeStep]
  simp

/-- Without any `launcher_radial` key the extraction fold leaves the
launcher flag unchanged. -/
theorem foldl_launcher_of_none :
    ∀ (fs : List LField) (st : ShapeSt),
      (∀ w, LField.nameKey (str "launcher_radial") w ∉ fs) →
      (fs.foldl shapeStep st).launcher = st.launcher := by
  intro fs
  induction fs with
  | nil => intro st _; rfl
  | cons f fs ih =>
    intro st hno
    rw [List.foldl_cons,
        ih (shapeStep st f) (fun w hw => hno w (List.mem_cons_of_mem f hw))]
    cases f with
    | noKey e => exact shapeStep_noKey_launcher st e
    | nameKey k v =>
      refine shapeStep_nameKey_launcher_other st k v ?_
      intro hk
      subst hk
      exact hno v (List.mem_cons_self _ _)

/-- With a `launcher_radial` key present, and all its occurrences carrying
the value `v`, the extraction fold ends with the flag computed from `v`. -/
theorem foldl_launcher_of_found :
    ∀ (fs : List LField) (st : ShapeSt) (v : LExpr),
      (∃ w, LField.nameKey (str "launcher_radial") w ∈ fs) →
      (∀ w, LField.nameKey (str "launcher_radial") w ∈ fs → w = v) →
      (fs.foldl shapeStep st).launcher = some (launcherFlag v) := by
  intro fs
  induction fs with
  | nil =>
    intro st v hex _
    obtain ⟨w, hw⟩ := hex
    cases hw
  | cons f fs ih =>
    intro st v hex huniq
    rw [List.foldl_cons]
    by_cases hf : ∃ w, LField.nameKey (str "launcher_radial") w ∈ fs
    · exact ih _ v hf (fun w hw => huniq w (List.mem_cons_of_mem f hw))
    · push_neg at hf
      obtain ⟨w, hw⟩ := hex
      rcases List.mem_cons.1 hw with hw1 | hw1
      · rw [foldl_launcher_of_none fs _ hf, ← hw1,
            shapeStep_nameKey_launcher_lr,
            huniq w (List.mem_cons.2 (Or.inl hw1))]
      · exact absurd hw1 (hf w)

/-- The launcher flag of an extracted shape is exactly the launcher
component of the field fold. -/
theorem extract_shape_launcher {fs : List LField} {sh : Shape}
    (h : extract_shape fs = some sh) :
    sh.launcher_radial = (fs.foldl shapeStep ⟨none, [], none, 0⟩).launcher := by
  simp only [extract_shape] at h
  split at h
  · injection h with h'
    subst h'
    rfl
  · cases h

/-- C9: on any input accepted by the grammar-driven path of
`parse_shapes_content` whose shape table carries a named
`launcher_radial` key, the extracted shape's flag is `some true` —
whatever the value — unless the value is literally the `false` symbol,
in which case it is `some false`. -/
theorem c9_launcher_radial (s : Str) (fs sfields : List LField) (sh : Shape) (v : LExpr)
    (hparse : luaParse ( fix_lua_syntax s) = some (.tbl fs))
    (hmem : LField.noKey (.tbl sfields) ∈ fs)
    (hex : extract_shape sfields = some sh)
    (hkey : LField.nameKey (str "launcher_radial") v ∈ sfields)
    (huniq : ∀ w, LField.nameKey (str "launcher_radial") w ∈ sfields → w = v) :
    (v = LExpr.sym (str "false") → sh.launcher_radial = some false) ∧
    (v ≠ LExpr.sym (str "false") → sh.launcher_radial = some true) := by
  have hl : sh.launcher_radial = some (launcherFlag v) := by
    rw [extract_shape_launcher hex]
    exact foldl_launcher_of_found sfields _ v ⟨v, hkey⟩ huniq
  constructor
  · intro hv
    subst hv
    rw [hl]
    rfl
  · intro hv
    rw [hl]
    congr 1
    cases v with
    | sym tok =>
      simp only [launcherFlag]
      rw [if_neg (fun h => hv (by rw [h]))]
    | num tok => rfl
    | neg e => rfl
    | var tok => rfl
    | tbl tf => rfl

/-- Witness for C9: the input `c9s` carries a bare `launcher_radial` flag
which the repair pass rewrites to `launcher_radial = true`; the extracted
shape has the flag `some true`. -/
theorem c9_witness :
    extract_shape c9wFields = some c9Shape ∧ c9Shape.launcher_radial = some true := by
  refine ⟨by decide, ?_⟩
  have hm : LField.noKey (.tbl c9wFields) ∈ c9fs := List.mem_singleton.2 rfl
  have hkey : LField.nameKey (str "launcher_radial") (.sym (str "true")) ∈ c9wFields := by
    unfold c9wFields
    exact List.mem_cons_of_mem _ (List.mem_cons_of_mem _ (List.mem_cons_self _ _))
  have huniq : ∀ w, LField.nameKey (str "launcher_radial") w ∈ c9wFields →
      w = LExpr.sym (str "true") := by
    intro w hw
    unfold c9wFields at hw
    rcases List.mem_cons.1 hw with h | hw
    · exact absurd h (by simp)
    rcases List.mem_cons.1 hw with h | hw
    · exact absurd h (by simp)
    rcases List.mem_cons.1 hw with h | hw
    · injection h
    · cases hw
  have h := c9_launcher_radial c9s c9fs c9wFields c9Shape (.sym (str "true"))
    rfl hm (by decide) hkey huniq
  refine h.2 ?_
  intro hc
  injection hc with h'
  exact absurd h' (by decide)

end RSE

namespace RSE

/-- C8 amended: the serializer omits the port's type token exactly when
`port_type` is `none`; every present type — including `Some(Default)` — is
emitted as a third token. -/
theorem c8_amended (p : Port) :
    (portLine p = specOmittedPortLine p ↔ p.port_type = none) ∧
    (∀ pt, p.port_type = some pt → PortType.to_str pt <:+: portLine p) := by
  constructor
  · constructor
    · intro h
      rcases hpt : p.port_type with _ | pt
      · rfl
      · exfalso
        unfold portLine specOmittedPortLine at h
        rw [hpt] at h
        simp only [List.append_assoc] at h
        have h2 := List.append_cancel_left (List.append_cancel_left
          (List.append_cancel_left (List.append_cancel_left h)))
        injection h2 with hc _
        exact absurd hc (by decide)
    · intro h
      unfold portLine specOmittedPortLine
      rw [h]
  · intro pt hpt
    refine ⟨str "                    \x7b" ++ natStr p.edge ++ str ", "
              ++ f32Str p.position ++ str ", ",
            str "\x7d,  -- Edge " ++ natStr p.edge ++ str ", position "
              ++ f32Str p.position ++ str ", type " ++ PortType.to_str pt ++ str "\n", ?_⟩
    unfold portLine
    rw [hpt]
    simp [List.append_assoc]

/-- Witness for C8 at an untyped port and a `Root`-typed port. -/
theorem c8_witness :
    (portLine ⟨3, ⟨5, 1⟩, none⟩ = specOmittedPortLine ⟨3, ⟨5, 1⟩, none⟩) ∧
    (PortType.to_str .Root <:+: portLine ⟨2, ⟨5, 1⟩, some .Root⟩) :=
  ⟨(c8_amended ⟨3, ⟨5, 1⟩, none⟩).1.2 rfl, (c8_amended ⟨2, ⟨5, 1⟩, some .Root⟩).2 .Root rfl⟩

end RSE

namespace RSE

/-- The suppression counter of `lrAux` just drops that many characters. -/
theorem lrAux_skip (p r : Str) :
    ∀ (cs : Str) (k : Nat), lrAux p r k cs = lrAux p r 0 (cs.drop k) := by
  intro cs
  induction cs with
  | nil => intro k; cases k <;> rfl
  | cons c cs ih =>
    intro k
    cases k with
    | zero => rfl
    | succ k =>
      show lrAux p r k cs = lrAux p r 0 ((c :: cs).drop (k + 1))
      rw [List.drop_succ_cons]
      exact ih k

/-- One-step unfolding of the replace engine: either the pattern matches at
the head and is replaced (skipping its span), or the head character is
copied. -/
theorem listReplace_cons (p r : Str) (c : Char) (cs : Str) :
    listReplace p r (c :: cs) =
      if p ≠ [] ∧ p <+: (c :: cs) then
        r ++ listReplace p r ((c :: cs).drop p.length)
      else c :: listReplace p r cs := by
  show lrAux p r 0 (c :: cs) = _
  rw [lrAux]
  split_ifs with h
  · rw [lrAux_skip]
    rcases p with _ | ⟨a, p'⟩
    · exact absurd rfl h.1
    · simp only [List.length_cons, Nat.add_sub_cancel, List.drop_succ_cons]
      rfl
  · rfl

/-- If the pattern occurs nowhere, `listReplace` is the identity. -/
theorem listReplace_id_of_no_occurrence (p r : Str) :
    ∀ s, ¬ p <:+: s → listReplace p r s = s := by
  intro s
  induction s with
  | nil => intro _; rfl
  | cons c cs ih =>
    intro h
    rw [listReplace_cons, if_neg (fun hI : _ ∧ _ => h ( List.IsPrefix.isInfix hI.2)),
        ih (fun hc => h (List.infix_cons hc))]

/-- A prefix of an append splits: it lies inside the left part or covers it
entirely. -/
theorem prefix_append_split :
    ∀ (r u t : Str), t <+: r ++ u → t <+: r ∨ ∃ w, t = r ++ w ∧ w <+: u := by
  intro r
  induction r with
  | nil => intro u t h; exact Or.inr ⟨t, rfl, h⟩
  | cons a r ih =>
    intro u t h
    rcases List.prefix_cons_iff.1 h with rfl | ⟨t', rfl, ht'⟩
    · exact Or.inl List.nil_prefix
    · rcases ih u t' ht' with h1 | ⟨w, rfl, hw⟩
      · exact Or.inl (List.cons_prefix_cons.2 ⟨rfl, h1⟩)
      · exact Or.inr ⟨w, by rw [List.cons_append], hw⟩

/-- An infix of an append lies inside the left part, inside the right part,
or straddles the boundary, splitting into a nonempty suffix of the left
part followed by a nonempty prefix of the right part. -/
theorem infix_append_split :
    ∀ (r u A : Str), A <:+: r ++ u →
      A <:+: r ∨ A <:+: u ∨
      ∃ q1 q2, A = q1 ++ q2 ∧ q1 ≠ [] ∧ q2 ≠ [] ∧ q1 <:+ r ∧ q2 <+: u := by
  intro r
  induction r with
  | nil => intro u A h; exact Or.inr (Or.inl (by simpa using h))
  | cons a r ih =>
    intro u A h
    rcases List.infix_cons_iff.1 h with hpre | hinf
    · rcases List.prefix_cons_iff.1 hpre with rfl | ⟨t, rfl, ht⟩
      · exact Or.inl ⟨[], a :: r, rfl⟩
      · rcases prefix_append_split r u t ht with h1 | ⟨w, rfl, hw⟩
        · exact Or.inl ( List.IsPrefix.isInfix (List.cons_prefix_cons.2 ⟨rfl, h1⟩))
        · rcases w with _ | ⟨w0, w'⟩
          · refine Or.inl ?_
            rw [List.append_nil]
          · refine Or.inr (Or.inr ⟨a :: r, w0 :: w', by rw [List.cons_append], ?_, ?_, List.suffix_refl _, hw⟩)
            · exact List.cons_ne_nil a r
            · exact List.cons_ne_nil w0 w'
    · rcases ih u A hinf with h1 | h2 | ⟨q1, q2, hA, hq1, hq2, hs, hpre⟩
      · exact Or.inl (List.infix_cons h1)
      · exact Or.inr (Or.inl h2)
      · exact Or.inr (Or.inr ⟨q1, q2, hA, hq1, hq2, hs.trans (List.suffix_cons a r), hpre⟩)

/-- A prefix of the replaced string that avoids the replacement's head
character is a prefix of the original string (the replacement blocks all
start with that character, so such a prefix only crosses copied
characters). -/
theorem prefix_transfer (p r' : Str) (hc : Char) :
    ∀ (x t : Str), hc ∉ t → t <+: listReplace p (hc :: r') x → t <+: x := by
  intro x
  induction x with
  | nil => intro t _ h; exact h
  | cons c cs ih =>
    intro t hnotin h
    rw [listReplace_cons] at h
    split_ifs at h with hm
    · rcases t with _ | ⟨t0, t'⟩
      · exact List.nil_prefix
      · rw [List.cons_append] at h
        obtain ⟨rfl, _⟩ := List.cons_prefix_cons.1 h
        exact absurd (List.mem_cons_self _ _) hnotin
    · rcases t with _ | ⟨t0, t'⟩
      · exact List.nil_prefix
      · obtain ⟨ht0, ht'⟩ := List.cons_prefix_cons.1 h
        exact List.cons_prefix_cons.2
          ⟨ht0, ih t' (fun hh => hnotin (List.mem_cons_of_mem _ hh)) ht'⟩

/-- Occurrence transfer: a word `a :: A'` that does not occur inside the
replacement `hc :: r'`, cannot straddle a replacement block boundary, and
avoids `hc` after its first character, occurs in `listReplace p (hc :: r') x`
only where it already occurs in `x`. -/
theorem infix_transfer (p r' A' : Str) (a hc : Char) (hp : p ≠ [])
    (hAr : ¬ (a :: A') <:+: (hc :: r'))
    (hstr : ∀ n, 0 < n → n < (a :: A').length → ¬ ((a :: A').take n) <:+ (hc :: r'))
    (hA' : hc ∉ A') :
    ∀ (n : Nat) (x : Str), x.length ≤ n →
      (a :: A') <:+: listReplace p (hc :: r') x → (a :: A') <:+: x := by
  intro n
  induction n with
  | zero =>
    intro x hx h
    have hxe : x = [] := List.eq_nil_of_length_eq_zero (Nat.le_zero.1 hx)
    subst hxe
    exact h
  | succ n ih =>
    intro x hx h
    rcases x with _ | ⟨c, cs⟩
    · exact h
    · rw [listReplace_cons] at h
      split_ifs at h with hm
      · rcases infix_append_split _ _ _ h with h1 | h2 | ⟨q1, q2, hA, hq1, hq2, hs, hpre⟩
        · exact absurd h1 hAr
        · have hlen : ((c :: cs).drop p.length).length ≤ n := by
            rcases p with _ | ⟨p0, p'⟩
            · exact absurd rfl hp
            · simp only [List.length_drop, List.length_cons] at hx ⊢
              omega
          exact (ih _ hlen h2).trans ( List.IsSuffix.isInfix (List.drop_suffix _ _))
        · have hq1pre : q1 <+: (a :: A') := ⟨q2, hA.symm⟩
          have hq1eq : q1 = (a :: A').take q1.length := List.prefix_iff_eq_take.1 hq1pre
          have hlt : q1.length < (a :: A').length := by
            rw [hA, List.length_append]
            have := List.length_pos.2 hq2
            omega
          exact absurd (hq1eq ▸ hs) (hstr q1.length (List.length_pos.2 hq1) hlt)
      · rcases List.infix_cons_iff.1 h with hpre | hinf
        · rcases List.cons_prefix_cons.1 hpre with ⟨hac, hA'p⟩
          exact List.IsPrefix.isInfix (List.cons_prefix_cons.2
            ⟨hac, prefix_transfer p r' hc cs A' hA' hA'p⟩)
        · have hlen : cs.length ≤ n := by
            simp only [List.length_cons] at hx
            omega
          exact List.infix_cons (ih cs hlen hinf)

/-- The replace engine never reintroduces its own pattern, provided the
pattern does not occur in (or straddle) the replacement and avoids the
replacement's head character after its own first character. -/
theorem no_self_occurrence (p' r' : Str) (a hc : Char)
    (hAr : ¬ (a :: p') <:+: (hc :: r'))
    (hstr : ∀ n, 0 < n → n < (a :: p').length → ¬ ((a :: p').take n) <:+ (hc :: r'))
    (hA' : hc ∉ p') :
    ∀ (n : Nat) (x : Str), x.length ≤ n →
      ¬ (a :: p') <:+: listReplace (a :: p') (hc :: r') x := by
  intro n
  induction n with
  | zero =>
    intro x hx h
    have hxe : x = [] := List.eq_nil_of_length_eq_zero (Nat.le_zero.1 hx)
    subst hxe
    have h' : (a :: p') <:+: ([] : Str) := h
    simp at h'
  | succ n ih =>
    intro x hx h
    rcases x with _ | ⟨c, cs⟩
    · have h' : (a :: p') <:+: ([] : Str) := h
      simp at h'
    · rw [listReplace_cons] at h
      split_ifs at h with hm
      · rcases infix_append_split _ _ _ h with h1 | h2 | ⟨q1, q2, hA, hq1, hq2, hs, hpre⟩
        · exact absurd h1 hAr
        · have hlen : ((c :: cs).drop (a :: p').length).length ≤ n := by
            simp only [List.length_drop, List.length_cons] at hx ⊢
            omega
          exact ih _ hlen h2
        · have hq1pre : q1 <+: (a :: p') := ⟨q2, hA.symm⟩
          have hq1eq : q1 = (a :: p').take q1.length := List.prefix_iff_eq_take.1 hq1pre
          have hlt : q1.length < (a :: p').length := by
            rw [hA, List.length_append]
            have := List.length_pos.2 hq2
            omega
          exact absurd (hq1eq ▸ hs) (hstr q1.length (List.length_pos.2 hq1) hlt)
      · rcases List.infix_cons_iff.1 h with hpre | hinf
        · rcases List.cons_prefix_cons.1 hpre with ⟨hac, hp'⟩
          exact hm ⟨List.cons_ne_nil a p',
            List.cons_prefix_cons.2 ⟨hac, prefix_transfer _ r' hc cs p' hA' hp'⟩⟩
        · have hlen : cs.length ≤ n := by
            simp only [List.length_cons] at hx
            omega
          exact ih cs hlen hinf

end RSE

namespace RSE

/-- The tab-variant comma repair never reintroduces its own pattern. -/
theorem s1_no_p1 (x : Str) :
    ¬ (str "\x7d\n\t\x7b") <:+: listReplace (str "\x7d\n\t\x7b") (str "\x7d,\n\t\x7b") x := by
  intro h
  exact no_self_occurrence (str "\n\t\x7b") (str ",\n\t\x7b") '\x7d' '\x7d'
    (by decide)
    (by
      intro k hk hlt
      rw [show (('\x7d' : Char) :: str "\n\t\x7b").length = 4 from rfl] at hlt
      interval_cases k <;> decide)
    (by decide) x.length x le_rfl h

/-- The plain comma repair never reintroduces its own pattern. -/
theorem s2_no_p2 (x : Str) :
    ¬ (str "\x7d\n\x7b") <:+: listReplace (str "\x7d\n\x7b") (str "\x7d,\n\x7b") x := by
  intro h
  exact no_self_occurrence (str "\n\x7b") (str ",\n\x7b") '\x7d' '\x7d'
    (by decide)
    (by
      intro k hk hlt
      rw [show (('\x7d' : Char) :: str "\n\x7b").length = 3 from rfl] at hlt
      interval_cases k <;> decide)
    (by decide) x.length x le_rfl h

/-- The plain comma repair cannot create a tab-variant occurrence. -/
theorem s2_keeps_no_p1 (x : Str) (hx : ¬ (str "\x7d\n\t\x7b") <:+: x) :
    ¬ (str "\x7d\n\t\x7b") <:+: listReplace (str "\x7d\n\x7b") (str "\x7d,\n\x7b") x := by
  intro h
  exact hx (infix_transfer (str "\x7d\n\x7b") (str ",\n\x7b") (str "\n\t\x7b") '\x7d' '\x7d'
    (by decide) (by decide)
    (by
      intro k hk hlt
      rw [show (('\x7d' : Char) :: str "\n\t\x7b").length = 4 from rfl] at hlt
      interval_cases k <;> decide)
    (by decide) x.length x le_rfl h)

/-- The tab-variant comma repair cannot create a `launcher_radial`
occurrence. -/
theorem s1_keeps_no_lr (x : Str) (hx : ¬ (str "launcher_radial") <:+: x) :
    ¬ (str "launcher_radial") <:+: listReplace (str "\x7d\n\t\x7b") (str "\x7d,\n\t\x7b") x := by
  intro h
  exact hx (infix_transfer (str "\x7d\n\t\x7b") (str ",\n\t\x7b") (str "auncher_radial") 'l' '\x7d'
    (by decide) (by decide)
    (by
      intro k hk hlt
      rw [show (('l' : Char) :: str "auncher_radial").length = 15 from rfl] at hlt
      interval_cases k <;> decide)
    (by decide) x.length x le_rfl h)

/-- The plain comma repair cannot create a `launcher_radial` occurrence. -/
theorem s2_keeps_no_lr (x : Str) (hx : ¬ (str "launcher_radial") <:+: x) :
    ¬ (str "launcher_radial") <:+: listReplace (str "\x7d\n\x7b") (str "\x7d,\n\x7b") x := by
  intro h
  exact hx (infix_transfer (str "\x7d\n\x7b") (str ",\n\x7b") (str "auncher_radial") 'l' '\x7d'
    (by decide) (by decide)
    (by
      intro k hk hlt
      rw [show (('l' : Char) :: str "auncher_radial").length = 15 from rfl] at hlt
      interval_cases k <;> decide)
    (by decide) x.length x le_rfl h)

/-- On input without `launcher_radial`, the repair pass is just the two
comma repairs: both `launcher_radial` rewrites are inert. -/
theorem fix_lua_syntax_of_no_lr (t : Str) (hq : ¬ (str "launcher_radial") <:+: t) :
    fix_lua_syntax t =
      listReplace (str "\x7d\n\x7b") (str "\x7d,\n\x7b")
        (listReplace (str "\x7d\n\t\x7b") (str "\x7d,\n\t\x7b") t) := by
  have hq2 : ¬ (str "launcher_radial") <:+:
      listReplace (str "\x7d\n\x7b") (str "\x7d,\n\x7b")
        (listReplace (str "\x7d\n\t\x7b") (str "\x7d,\n\t\x7b") t) :=
    s2_keeps_no_lr _ (s1_keeps_no_lr _ hq)
  show listReplace (str "launcher_radial") (str "launcher_radial = true")
      (listReplace (str "launcher_radial=") (str "launcher_radial = ") _) = _
  rw [listReplace_id_of_no_occurrence (str "launcher_radial=") _ _
        (fun hc => hq2 ((show (str "launcher_radial") <:+: (str "launcher_radial=") by
          decide).trans hc)),
      listReplace_id_of_no_occurrence (str "launcher_radial") _ _ hq2]

/-- C4 amended: the repair pass is idempotent on every input that does not
contain the substring `launcher_radial`; on such input only the two comma
repairs act, and neither can recreate a comma-repair pattern. -/
theorem c4_amended (t : Str) (hq : ¬ (str "launcher_radial") <:+: t) :
    fix_lua_syntax ( fix_lua_syntax t) = fix_lua_syntax t := by
  rw [fix_lua_syntax_of_no_lr t hq,
      fix_lua_syntax_of_no_lr _ (s2_keeps_no_lr _ (s1_keeps_no_lr _ hq)),
      listReplace_id_of_no_occurrence _ _ _ (s2_keeps_no_p1 _ (s1_no_p1 t)),
      listReplace_id_of_no_occurrence _ _ _ (s2_no_p2 _)]

/-- C4 counterexample: on the input `launcher_radial` itself the repair
pass is not idempotent — the first application yields
`launcher_radial = true`, the second `launcher_radial = true = true`. -/
theorem c4_counterexample :
    fix_lua_syntax ( fix_lua_syntax (str "launcher_radial"))
      ≠ fix_lua_syntax (str "launcher_radial") := by decide

/-- Witness for C4 on a brace-heavy input without `launcher_radial`. -/
theorem c4_witness :
    fix_lua_syntax ( fix_lua_syntax (str "\x7b5,\x7d\n\x7b6,\x7d"))
      = fix_lua_syntax (str "\x7b5,\x7d\n\x7b6,\x7d") :=
  c4_amended (str "\x7b5,\x7d\n\x7b6,\x7d") (by decide)

end RSE
